import Mathlib

/-!
# A shallow embedding of `prchecker.py`

The program iterates the open pull requests of a repository; for each one it
runs, inside the configured work tree, the subprocess sequence
`git fetch`, `git reset --hard`, `git clean -dfx`, `git checkout origin/<base>`,
`git merge origin/<head> --no-commit`, and finally the configured flake8
executable.  Each subprocess either exits with a status code or raises some
other exception; the `sh` library turns a non-zero exit status into an
`ErrorReturnCode` exception, which the per-pull-request loop catches.

We embed the program as a trace semantics: the behaviour of the external world
(git, the checker binary) is an oracle `exec : Cmd → σ → CmdResult × σ`
threading an abstract state `σ`, and every program fragment returns the list
of subprocess invocations it performed together with the final state and
either a normal result or the propagating exception.  The environment-variable
accessor `ItemAttrs` is embedded over an association list standing for the
Python dict `os.environ`.
-/

/-- The subprocess commands spawned by `merge_and_check`: the five git
commands of lines 65–71 of `prchecker.py` and the checker invocation of
line 73. -/
inductive Cmd where
  | fetch
  | resetHard
  | cleanDfx
  | checkout (ref : String)
  | merge (ref : String) (noCommit : Bool)
  | checker (path : String) (args : List String)
  deriving DecidableEq, Repr

/-- What a spawned subprocess does: exit with a status code, or fail with a
non-`ErrorReturnCode` exception (OS error, and the like). -/
inductive CmdResult where
  | exit (code : Nat)
  | exc (msg : String)
  deriving DecidableEq, Repr

/-- A Python exception relevant to the program: `sh.ErrorReturnCode`, carrying
the failing command and its exit status, or any other exception. -/
inductive Exc where
  | errorReturnCode (c : Cmd) (exitCode : Nat)
  | other (msg : String)
  deriving DecidableEq, Repr

instance : DecidableEq (Except Exc Unit)
  | .ok a, .ok b => isTrue (by cases a; cases b; rfl)
  | .ok _, .error _ => isFalse (by simp)
  | .error _, .ok _ => isFalse (by simp)
  | .error e, .error f =>
      if h : e = f then isTrue (by rw [h]) else isFalse (by simp [h])

/-- The outcome of running a program fragment: the subprocess invocations it
performed (in order), the final external state, and either a value or a
propagating exception. -/
structure Run (σ : Type) where
  trace : List Cmd
  state : σ
  result : Except Exc Unit
  deriving Repr

variable {σ : Type}

/-- Spawn one subprocess via the oracle.  Mirrors the `sh` library: a
non-zero exit status raises `ErrorReturnCode`; any other failure propagates
as a non-`ErrorReturnCode` exception. -/
def runCmd (exec : Cmd → σ → CmdResult × σ) (c : Cmd) (s : σ) : Run σ :=
  match exec c s with
  | (.exit code, s') =>
      ⟨[c], s', if code = 0 then .ok () else .error (.errorReturnCode c code)⟩
  | (.exc m, s') => ⟨[c], s', .error (.other m)⟩

/-- Sequencing of program fragments: the second runs only when the first
finished normally; an exception aborts the rest. -/
def Run.andThen (r : Run σ) (f : σ → Run σ) : Run σ :=
  match r.result with
  | .ok _ =>
      let r2 := f r.state
      ⟨r.trace ++ r2.trace, r2.state, r2.result⟩
  | .error e => ⟨r.trace, r.state, .error e⟩

/-- Run a list of commands in order, stopping at the first exception. -/
def runSeq (exec : Cmd → σ → CmdResult × σ) : List Cmd → σ → Run σ
  | [], s => ⟨[], s, .ok ()⟩
  | c :: cs, s => (runCmd exec c s).andThen (runSeq exec cs)

/-- The configuration values the checking loop reads from the environment
(`WORK_TREE`, `FLAKE8_PATH`, `FLAKE8_CONFIG_PATH`). -/
structure EnvConfig where
  WORK_TREE : String
  FLAKE8_PATH : String
  FLAKE8_CONFIG_PATH : String
  deriving DecidableEq, Repr

/-- Lines 64–71 of `merge_and_check`: `git.fetch()`, `git.reset(hard=True)`,
`git.clean('-dfx')`, `git.checkout('origin/' + base)`,
`git.merge('origin/' + head, no_commit=True)`. -/
def gitPhase (exec : Cmd → σ → CmdResult × σ) (base head : String) (s : σ) : Run σ :=
  (runCmd exec .fetch s).andThen fun s =>
  (runCmd exec .resetHard s).andThen fun s =>
  (runCmd exec .cleanDfx s).andThen fun s =>
  (runCmd exec (.checkout ("origin/" ++ base)) s).andThen fun s =>
  runCmd exec (.merge ("origin/" ++ head) true) s

/-- Line 73: `Command(env.FLAKE8_PATH)('cemt', config=env.FLAKE8_CONFIG_PATH)`.
`sh` renders the keyword argument as `--config=<value>`. -/
def checkerCmd (env : EnvConfig) : Cmd :=
  .checker env.FLAKE8_PATH ["cemt", "--config=" ++ env.FLAKE8_CONFIG_PATH]

/-- `merge_and_check(base, head)`: the git phase followed by the checker
invocation.  Raising semantics are inherited from `runCmd`/`Run.andThen`. -/
def merge_and_check (exec : Cmd → σ → CmdResult × σ) (env : EnvConfig)
    (base head : String) (s : σ) : Run σ :=
  (gitPhase exec base head s).andThen fun s => runCmd exec (checkerCmd env) s

/-- The git commands of the git phase, in their program order. -/
def gitCmds (base head : String) : List Cmd :=
  [.fetch, .resetHard, .cleanDfx, .checkout ("origin/" ++ base),
   .merge ("origin/" ++ head) true]

/-- All commands `merge_and_check` can spawn, in their program order. -/
def macCmds (env : EnvConfig) (base head : String) : List Cmd :=
  gitCmds base head ++ [checkerCmd env]

/-- A pull-request record as consumed from the hosting service:
`pr.number`, `pr.base.ref`, `pr.head.ref`. -/
structure PR where
  number : Nat
  base : String
  head : String
  deriving DecidableEq, Repr

/-- Observable events of the checking loop: a line printed, a change of the
process working directory, or a subprocess spawned while the working
directory is `cwd`. -/
inductive Event where
  | print (s : String)
  | chdir (path : String)
  | run (cwd : String) (c : Cmd)
  deriving DecidableEq, Repr

/-- Rendering of a command, used in the `ErrorReturnCode` message. -/
def Cmd.text : Cmd → String
  | .fetch => "git fetch"
  | .resetHard => "git reset --hard"
  | .cleanDfx => "git clean -dfx"
  | .checkout ref => "git checkout " ++ ref
  | .merge ref noCommit => "git merge " ++ ref ++ (if noCommit then " --no-commit" else "")
  | .checker path args => String.intercalate " " (path :: args)

/-- The message of an `sh.ErrorReturnCode` exception: it names the command
that ran and its exit status. -/
def ercMessage (c : Cmd) (exitCode : Nat) : String :=
  c.text ++ " exited with code " ++ toString exitCode

/-- One iteration of the loop body (lines 79–85): print the checking notice,
run `merge_and_check`, catch `ErrorReturnCode` and print the failure notice,
print the success notice otherwise; any other exception propagates. -/
def checkOne (exec : Cmd → σ → CmdResult × σ) (env : EnvConfig) (cwd : String)
    (pr : PR) (s : σ) : List Event × σ × Except Exc Unit :=
  let notice := Event.print ("Checking pull request #" ++ toString pr.number ++ "...")
  let r := merge_and_check exec env pr.base pr.head s
  match r.result with
  | .ok _ =>
      (notice :: (r.trace.map (Event.run cwd) ++ [Event.print "✔ Looks good!"]),
       r.state, .ok ())
  | .error (.errorReturnCode c ec) =>
      (notice :: (r.trace.map (Event.run cwd) ++
         [Event.print ("✘ Problem: " ++ ercMessage c ec)]),
       r.state, .ok ())
  | .error (.other m) =>
      (notice :: r.trace.map (Event.run cwd), r.state, .error (.other m))

/-- The `for pr in repo.pull_requests(state='open')` loop: iterations run in
order; an uncaught exception aborts the remaining iterations. -/
def prLoop (exec : Cmd → σ → CmdResult × σ) (env : EnvConfig) (cwd : String) :
    List PR → σ → List Event × σ × Except Exc Unit
  | [], s => ([], s, .ok ())
  | pr :: rest, s =>
      let step := checkOne exec env cwd pr s
      match step.2.2 with
      | .ok _ =>
          let tail := prLoop exec env cwd rest step.2.1
          (step.1 ++ tail.1, tail.2.1, tail.2.2)
      | .error e => (step.1, step.2.1, .error e)

/-- The ambient process state threaded through `check_open_pull_requests`:
the current working directory and the external (git/filesystem) state. -/
structure ProcState (σ : Type) where
  cwd : String
  tree : σ
  deriving Repr

/-- `temp_chdir(path)` (lines 45–53): record the original working directory,
`os.chdir(path)`, run the body with `cwd = path`, and — in a `finally`
clause, hence on every exit path, normal or exceptional — `os.chdir` back to
the original directory. -/
def temp_chdir (path : String)
    (body : String → σ → List Event × σ × Except Exc Unit)
    (st : ProcState σ) : List Event × ProcState σ × Except Exc Unit :=
  let original_wd := st.cwd
  let r := body path st.tree
  (Event.chdir path :: (r.1 ++ [Event.chdir original_wd]),
   ⟨original_wd, r.2.1⟩, r.2.2)

/-- `check_open_pull_requests(repo)` (lines 76–85): enter the work tree once
via `temp_chdir`, then run the loop over the open pull requests. -/
def check_open_pull_requests (exec : Cmd → σ → CmdResult × σ) (env : EnvConfig)
    (prs : List PR) (st : ProcState σ) : List Event × ProcState σ × Except Exc Unit :=
  temp_chdir env.WORK_TREE (fun cwd s => prLoop exec env cwd prs s) st

/-- Is this command the checker invocation? -/
def isChecker : Cmd → Bool
  | .checker _ _ => true
  | _ => false

/-- Is this event a spawn of the checker subprocess? -/
def isCheckerEvent : Event → Bool
  | .run _ c => isChecker c
  | _ => false

/-- Number of checker invocations among a list of events. -/
def countChecker (evs : List Event) : Nat :=
  evs.countP fun e => isCheckerEvent e

/-! ## A concrete semantics of the git commands

For the idempotence claim we instantiate the oracle with an explicit model of
the working tree and of the (unchanging) external world: the remote refs, the
commit → tree mapping, the merge function and the checker's verdict on each
tree content. -/

/-- The external world, fixed for the duration of a run: remote refs (keyed
by their remote-tracking name, e.g. `origin/main`), the content of each
commit, the automatic-merge function (`none` = conflict), and the exit
status of the checker on each working-tree content. -/
structure GitWorld where
  refs : String → Option String
  commitTree : String → String
  mergeTree : String → String → Option String
  checkerExit : String → Nat

/-- The mutable state of the local clone. -/
structure Worktree where
  remoteRefs : String → Option String
  headCommit : String
  content : String
  untracked : Bool
  localBranches : List (String × String)
  commits : List String

/-- Semantics of the individual commands against the local clone:
`fetch` refreshes the remote-tracking refs; `reset --hard` restores the
content of `HEAD`; `clean -dfx` removes untracked files; `checkout ref`
moves `HEAD` to the commit of a known remote-tracking ref (detached — the
local branches are untouched) and fails otherwise; `merge ref --no-commit`
applies the automatic merge to the working tree without creating a commit,
failing on a conflict or an unknown ref; the checker's exit status depends
only on the working-tree content. -/
def gitExec (w : GitWorld) : Cmd → Worktree → CmdResult × Worktree
  | .fetch, t => (.exit 0, { t with remoteRefs := w.refs })
  | .resetHard, t => (.exit 0, { t with content := w.commitTree t.headCommit })
  | .cleanDfx, t => (.exit 0, { t with untracked := false })
  | .checkout ref, t =>
      match t.remoteRefs ref with
      | some c => (.exit 0, { t with headCommit := c, content := w.commitTree c })
      | none => (.exit 1, t)
  | .merge ref noCommit, t =>
      match t.remoteRefs ref with
      | some h =>
          match w.mergeTree t.headCommit h with
          | some m =>
              if noCommit then (.exit 0, { t with content := m })
              else
                (.exit 0,
                 { t with content := m,
                          headCommit := "merge-" ++ t.headCommit ++ "-" ++ h,
                          commits := ("merge-" ++ t.headCommit ++ "-" ++ h) :: t.commits })
          | none => (.exit 1, t)
      | none => (.exit 1, t)
  | .checker _ _, t => (.exit (w.checkerExit t.content), t)

/-! ## The environment accessor -/

/-- `ItemAttrs` (lines 26–38): an adapter exposing the items of a mapping as
attributes.  The underlying Python dict is embedded as an association list
with unique keys. -/
structure ItemAttrs where
  _items : List (String × String)
  deriving DecidableEq, Repr

/-- Assignment `d[k] = v` on a dict: replace the binding of `k` when
present, append it otherwise. -/
def dictSet : List (String × String) → String → String → List (String × String)
  | [], k, v => [(k, v)]
  | (k', v') :: rest, k, v =>
      if k' = k then (k, v) :: rest else (k', v') :: dictSet rest k v

/-- Deletion `del d[k]` on a dict: remove the binding of `k`, or `none`
(a `KeyError`) when it is absent. -/
def dictDel : List (String × String) → String → Option (List (String × String))
  | [], _ => none
  | (k', v') :: rest, k =>
      if k' = k then some rest else (dictDel rest k).map fun r => (k', v') :: r

/-- `__getattr__` (lines 31–32): `return self._items[name]`; a missing key
raises `KeyError(name)`.  The method reads the mapping and leaves the object
unchanged, which the explicit state-passing makes visible in the second
component. -/
def ItemAttrs.getattr (a : ItemAttrs) (name : String) :
    Except String String × ItemAttrs :=
  ((match a._items.lookup name with
    | some v => .ok v
    | none => .error name), a)

/-- `__setattr__` (lines 34–35): `self._items[name] = value`. -/
def ItemAttrs.setattr (a : ItemAttrs) (name value : String) : ItemAttrs :=
  ⟨dictSet a._items name value⟩

/-- `__delattr__` (lines 37–38): `del self._items[name]`; a missing key
raises `KeyError(name)`. -/
def ItemAttrs.delattr (a : ItemAttrs) (name : String) : Except String ItemAttrs :=
  match dictDel a._items name with
  | some items => .ok ⟨items⟩
  | none => .error name

/-! ## Concrete fixtures used by the witnesses -/

/-- An external world in which every subprocess exits with status 0. -/
def execAllOk : Cmd → Unit → CmdResult × Unit := fun _ s => (.exit 0, s)

/-- An external world in which the merge exits with status 1 (a conflict)
and every other subprocess exits with status 0. -/
def execMergeConflict : Cmd → Unit → CmdResult × Unit := fun c s =>
  match c with
  | .merge _ _ => (.exit 1, s)
  | _ => (.exit 0, s)

/-- A sample configuration. -/
def envEx : EnvConfig := ⟨"/work", "/usr/bin/flake8", "/cfg/setup.cfg"⟩

/-- A sample environment mapping. -/
def aEx : ItemAttrs := ⟨[("WORK_TREE", "/work"), ("FLAKE8_PATH", "/usr/bin/flake8")]⟩

/-! ## Generic facts about command sequences -/

lemma runCmd_trace (exec : Cmd → σ → CmdResult × σ) (c : Cmd) (s : σ) :
    (runCmd exec c s).trace = [c] := by
  rcases h : exec c s with ⟨cr, s'⟩
  cases cr <;> simp [runCmd, h]

lemma andThen_runSeq_nil (exec : Cmd → σ → CmdResult × σ) (r : Run σ) :
    r.andThen (runSeq exec []) = r := by
  rcases r with ⟨t, st, res⟩
  cases res with
  | ok v => cases v; simp [Run.andThen, runSeq]
  | error e => simp [Run.andThen]

lemma andThen_pure (r : Run σ) :
    (r.andThen fun x => Run.mk [] x (.ok ())) = r := by
  rcases r with ⟨t, st, res⟩
  cases res with
  | ok v => cases v; simp [Run.andThen]
  | error e => simp [Run.andThen]

lemma nil_andThen (f : σ → Run σ) (s : σ) :
    (Run.mk [] s (.ok ())).andThen f = f s := by
  rcases hf : f s with ⟨t, st, r⟩
  simp [Run.andThen, hf]

lemma andThen_assoc (r : Run σ) (f g : σ → Run σ) :
    (r.andThen f).andThen g = r.andThen fun s => (f s).andThen g := by
  rcases r with ⟨t, st, res⟩
  cases res with
  | ok v =>
      rcases hf : f st with ⟨t2, st2, r2⟩
      cases r2 <;> simp [Run.andThen, hf, List.append_assoc]
  | error e => simp [Run.andThen]

lemma runSeq_append (exec : Cmd → σ → CmdResult × σ) :
    ∀ (cs ds : List Cmd) (s : σ),
      runSeq exec (cs ++ ds) s = (runSeq exec cs s).andThen (runSeq exec ds)
  | [], ds, s => by simp [runSeq, nil_andThen]
  | c :: cs, ds, s => by
      show (runCmd exec c s).andThen (runSeq exec (cs ++ ds)) = _
      rw [runSeq, andThen_assoc]
      congr 1
      funext s'
      exact runSeq_append exec cs ds s'

lemma gitPhase_eq_runSeq (exec : Cmd → σ → CmdResult × σ) (base head : String) (s : σ) :
    gitPhase exec base head s = runSeq exec (gitCmds base head) s := by
  simp [gitPhase, gitCmds, runSeq, andThen_pure]

lemma merge_and_check_eq_runSeq (exec : Cmd → σ → CmdResult × σ) (env : EnvConfig)
    (base head : String) (s : σ) :
    merge_and_check exec env base head s = runSeq exec (macCmds env base head) s := by
  rw [macCmds, runSeq_append, merge_and_check, gitPhase_eq_runSeq]
  congr 1
  funext s'
  simp [runSeq, andThen_pure]

lemma runSeq_take (exec : Cmd → σ → CmdResult × σ) :
    ∀ (cs : List Cmd) (s : σ), ∃ k, k ≤ cs.length ∧ (runSeq exec cs s).trace = cs.take k
  | [], s => ⟨0, by simp [runSeq]⟩
  | c :: cs, s => by
      rcases h : exec c s with ⟨cr, s'⟩
      cases cr with
      | exit code =>
          by_cases hc : code = 0
          · obtain ⟨k, hk, ht⟩ := runSeq_take exec cs s'
            exact ⟨k + 1, by simpa using hk,
              by simp [runSeq, runCmd, Run.andThen, h, hc, ht]⟩
          · exact ⟨1, by simp, by simp [runSeq, runCmd, Run.andThen, h, hc]⟩
      | exc m => exact ⟨1, by simp, by simp [runSeq, runCmd, Run.andThen, h]⟩

lemma runSeq_ok_trace (exec : Cmd → σ → CmdResult × σ) :
    ∀ (cs : List Cmd) (s : σ),
      (runSeq exec cs s).result = .ok () → (runSeq exec cs s).trace = cs
  | [], s, _ => by simp [runSeq]
  | c :: cs, s, h => by
      rcases hcs : exec c s with ⟨cr, s'⟩
      cases cr with
      | exit code =>
          by_cases hc : code = 0
          · have h' : (runSeq exec cs s').result = .ok () := by
              simpa [runSeq, runCmd, Run.andThen, hcs, hc] using h
            have := runSeq_ok_trace exec cs s' h'
            simp [runSeq, runCmd, Run.andThen, hcs, hc, this]
          · simp [runSeq, runCmd, Run.andThen, hcs, hc] at h
      | exc m => simp [runSeq, runCmd, Run.andThen, hcs] at h

lemma runSeq_erc_last (exec : Cmd → σ → CmdResult × σ) :
    ∀ (cs : List Cmd) (s : σ) (c : Cmd) (ec : Nat),
      (runSeq exec cs s).result = .error (.errorReturnCode c ec) →
      ∃ pre, (runSeq exec cs s).trace = pre ++ [c]
  | [], s, c, ec, h => by simp [runSeq] at h
  | c0 :: cs, s, c, ec, h => by
      rcases hcs : exec c0 s with ⟨cr, s'⟩
      cases cr with
      | exit code =>
          by_cases hc : code = 0
          · have h' : (runSeq exec cs s').result = .error (.errorReturnCode c ec) := by
              simpa [runSeq, runCmd, Run.andThen, hcs, hc] using h
            obtain ⟨pre, hpre⟩ := runSeq_erc_last exec cs s' c ec h'
            exact ⟨c0 :: pre, by simp [runSeq, runCmd, Run.andThen, hcs, hc, hpre]⟩
          · have h' := h
            simp [runSeq, runCmd, Run.andThen, hcs, hc] at h'
            obtain ⟨h1, h2⟩ := h'
            subst h1
            exact ⟨[], by simp [runSeq, runCmd, Run.andThen, hcs, hc]⟩
      | exc m => simp [runSeq, runCmd, Run.andThen, hcs] at h

/-! ## Counting checker invocations -/

lemma countP_isChecker_gitCmds (base head : String) :
    (gitCmds base head).countP (fun c => isChecker c) = 0 := rfl

lemma gitPhase_countP (exec : Cmd → σ → CmdResult × σ) (base head : String) (s : σ) :
    (gitPhase exec base head s).trace.countP (fun c => isChecker c) = 0 := by
  rw [gitPhase_eq_runSeq]
  obtain ⟨k, hk, ht⟩ := runSeq_take exec (gitCmds base head) s
  rw [ht]
  have hle := (List.take_sublist k (gitCmds base head)).countP_le (fun c => isChecker c)
  rw [countP_isChecker_gitCmds] at hle
  omega

lemma mac_countP (exec : Cmd → σ → CmdResult × σ) (env : EnvConfig)
    (base head : String) (s : σ) :
    (merge_and_check exec env base head s).trace.countP (fun c => isChecker c) =
      if (gitPhase exec base head s).result = .ok () then 1 else 0 := by
  have hg := gitPhase_countP exec base head s
  rcases hgr : gitPhase exec base head s with ⟨gt, gs, gres⟩
  rw [hgr] at hg
  simp only at hg
  rw [merge_and_check, hgr]
  have hone : List.countP (fun c => isChecker c) [checkerCmd env] = 1 := rfl
  cases gres with
  | ok v =>
      cases v
      simp [Run.andThen, List.countP_append, hg, runCmd_trace, hone]
  | error e => simp [Run.andThen, hg]

lemma isCheckerEvent_print (s : String) : isCheckerEvent (.print s) = false := rfl

lemma isCheckerEvent_run (cwd : String) (c : Cmd) :
    isCheckerEvent (.run cwd c) = isChecker c := rfl

lemma countChecker_run_map (cwd : String) (tr : List Cmd) :
    countChecker (tr.map (Event.run cwd)) = tr.countP (fun c => isChecker c) := by
  rw [countChecker, List.countP_map]
  rfl

lemma countChecker_checkOne (exec : Cmd → σ → CmdResult × σ) (env : EnvConfig)
    (cwd : String) (pr : PR) (s : σ) :
    countChecker (checkOne exec env cwd pr s).1 =
      (merge_and_check exec env pr.base pr.head s).trace.countP (fun c => isChecker c) := by
  rcases h : (merge_and_check exec env pr.base pr.head s).result with e | v
  · rcases e with ⟨c, ec⟩ | m <;>
      simp [checkOne, h, countChecker, List.countP_cons, List.countP_append,
        List.countP_map, Function.comp_def, isCheckerEvent_print, isCheckerEvent_run]
  · simp [checkOne, h, countChecker, List.countP_cons, List.countP_append,
      List.countP_map, Function.comp_def, isCheckerEvent_print, isCheckerEvent_run]

lemma countChecker_checkOne_le_one (exec : Cmd → σ → CmdResult × σ) (env : EnvConfig)
    (cwd : String) (pr : PR) (s : σ) :
    countChecker (checkOne exec env cwd pr s).1 ≤ 1 := by
  rw [countChecker_checkOne, mac_countP]
  split <;> omega

lemma prLoop_countChecker_le (exec : Cmd → σ → CmdResult × σ) (env : EnvConfig)
    (cwd : String) :
    ∀ (prs : List PR) (s : σ), countChecker (prLoop exec env cwd prs s).1 ≤ prs.length
  | [], s => by simp [prLoop, countChecker]
  | pr :: rest, s => by
      have h1 := countChecker_checkOne_le_one exec env cwd pr s
      rcases hs : (checkOne exec env cwd pr s).2.2 with e | v
      · have hloop : (prLoop exec env cwd (pr :: rest) s).1 = (checkOne exec env cwd pr s).1 := by
          simp [prLoop, hs]
        rw [hloop]
        simp only [List.length_cons]
        omega
      · have ih := prLoop_countChecker_le exec env cwd rest (checkOne exec env cwd pr s).2.1
        have hloop : (prLoop exec env cwd (pr :: rest) s).1 =
            (checkOne exec env cwd pr s).1 ++
              (prLoop exec env cwd rest (checkOne exec env cwd pr s).2.1).1 := by
          simp [prLoop, hs]
        rw [hloop, countChecker, List.countP_append]
        rw [countChecker] at h1 ih
        simp only [List.length_cons]
        omega

/-! ## Shape of the loop's event stream -/

lemma checkOne_no_chdir (exec : Cmd → σ → CmdResult × σ) (env : EnvConfig)
    (cwd : String) (pr : PR) (s : σ) (p : String) :
    Event.chdir p ∉ (checkOne exec env cwd pr s).1 := by
  rcases h : (merge_and_check exec env pr.base pr.head s).result with e | v
  · rcases e with ⟨c, ec⟩ | m <;> simp [checkOne, h]
  · simp [checkOne, h]

lemma prLoop_no_chdir (exec : Cmd → σ → CmdResult × σ) (env : EnvConfig) (cwd : String) :
    ∀ (prs : List PR) (s : σ) (p : String),
      Event.chdir p ∉ (prLoop exec env cwd prs s).1
  | [], s, p => by simp [prLoop]
  | pr :: rest, s, p => by
      rcases hs : (checkOne exec env cwd pr s).2.2 with e | v
      · intro hmem
        simp only [prLoop, hs] at hmem
        exact checkOne_no_chdir exec env cwd pr s p hmem
      · intro hmem
        simp only [prLoop, hs, List.mem_append] at hmem
        rcases hmem with h1 | h2
        · exact checkOne_no_chdir exec env cwd pr s p h1
        · exact prLoop_no_chdir exec env cwd rest _ p h2

lemma mem_run_map {w cwd : String} {c : Cmd} {tr : List Cmd} :
    Event.run w c ∈ tr.map (Event.run cwd) → w = cwd := by
  intro h
  rcases List.mem_map.mp h with ⟨c', _, heq⟩
  injection heq with h1 h2
  exact h1.symm

lemma checkOne_events_structure (exec : Cmd → σ → CmdResult × σ) (env : EnvConfig)
    (cwd : String) (pr : PR) (s : σ) :
    ∃ tailPrints : List Event,
      (checkOne exec env cwd pr s).1 =
        Event.print ("Checking pull request #" ++ toString pr.number ++ "...") ::
          ((merge_and_check exec env pr.base pr.head s).trace.map (Event.run cwd) ++
            tailPrints) ∧
      ∀ e ∈ tailPrints, ∃ str, e = Event.print str := by
  rcases h : (merge_and_check exec env pr.base pr.head s).result with e | v
  · rcases e with ⟨c, ec⟩ | m
    · exact ⟨[Event.print ("✘ Problem: " ++ ercMessage c ec)],
        by simp [checkOne, h], by simp⟩
    · exact ⟨[], by simp [checkOne, h], by simp⟩
  · exact ⟨[Event.print "✔ Looks good!"], by simp [checkOne, h], by simp⟩

lemma checkOne_run_cwd (exec : Cmd → σ → CmdResult × σ) (env : EnvConfig)
    (cwd : String) (pr : PR) (s : σ) (w : String) (c : Cmd) :
    Event.run w c ∈ (checkOne exec env cwd pr s).1 → w = cwd := by
  intro hmem
  obtain ⟨tailPrints, hev, htail⟩ := checkOne_events_structure exec env cwd pr s
  rw [hev] at hmem
  rcases List.mem_cons.mp hmem with h0 | h1
  · exact absurd h0 (by simp)
  · rcases List.mem_append.mp h1 with h2 | h3
    · exact mem_run_map h2
    · obtain ⟨str, heq⟩ := htail _ h3
      simp at heq

lemma prLoop_run_cwd (exec : Cmd → σ → CmdResult × σ) (env : EnvConfig) (cwd : String) :
    ∀ (prs : List PR) (s : σ) (w : String) (c : Cmd),
      Event.run w c ∈ (prLoop exec env cwd prs s).1 → w = cwd
  | [], s, w, c => by simp [prLoop]
  | pr :: rest, s, w, c => by
      intro hmem
      rcases hs : (checkOne exec env cwd pr s).2.2 with e | v
      · simp only [prLoop, hs] at hmem
        exact checkOne_run_cwd exec env cwd pr s w c hmem
      · simp only [prLoop, hs, List.mem_append] at hmem
        rcases hmem with h1 | h2
        · exact checkOne_run_cwd exec env cwd pr s w c h1
        · exact prLoop_run_cwd exec env cwd rest _ w c h2

/-! ## Facts about the dict embedding -/

lemma lookup_dictSet_self :
    ∀ (items : List (String × String)) (k v : String),
      (dictSet items k v).lookup k = some v
  | [], k, v => by simp [dictSet, List.lookup_cons]
  | (k', v') :: rest, k, v => by
      by_cases h : k' = k
      · subst h
        simp [dictSet, List.lookup_cons]
      · have hb : (k == k') = false := by
          simp [Ne.symm h]
        simp [dictSet, h, List.lookup_cons, hb]
        exact lookup_dictSet_self rest k v

lemma lookup_eq_none_of_not_mem_keys :
    ∀ (l : List (String × String)) (k : String),
      k ∉ l.map Prod.fst → l.lookup k = none
  | [], k, _ => rfl
  | (k', v') :: rest, k, h => by
      simp only [List.map_cons, List.mem_cons] at h
      push_neg at h
      have hb : (k == k') = false := by simp [h.1]
      rw [List.lookup_cons, hb]
      exact lookup_eq_none_of_not_mem_keys rest k h.2

lemma lookup_dictDel_dictSet :
    ∀ (items : List (String × String)) (k v : String),
      (items.map Prod.fst).Nodup →
      ∃ r, dictDel (dictSet items k v) k = some r ∧ r.lookup k = none
  | [], k, v, _ => ⟨[], by simp [dictSet, dictDel], rfl⟩
  | (k', v') :: rest, k, v, h => by
      have hnd : (rest.map Prod.fst).Nodup := by
        simpa using h.of_cons
      by_cases hk : k' = k
      · subst hk
        refine ⟨rest, by simp [dictSet, dictDel], ?_⟩
        apply lookup_eq_none_of_not_mem_keys
        have := h.not_mem
        simpa using this
      · obtain ⟨r, hr, hl⟩ := lookup_dictDel_dictSet rest k v hnd
        refine ⟨(k', v') :: r, ?_, ?_⟩
        · simp [dictSet, dictDel, hk, hr]
        · have hb : (k == k') = false := by simp [Ne.symm hk]
          simp [List.lookup_cons, hb, hl]

/-! ## The claims -/

/-- Claim C1: for every pull request, `merge_and_check` executes the five git
steps in the fixed order fetch, reset --hard, clean -dfx, checkout of the
base reference, merge of the head reference, followed by the checker
invocation — the executed trace is always an initial segment of that fixed
command list, it is the whole list exactly on success, and when a step
raises the command-failed condition that step is the last one executed, so
no later step runs. -/
theorem C1_fixed_order_prefix_abort (exec : Cmd → σ → CmdResult × σ) (env : EnvConfig)
    (base head : String) (s : σ) :
    (∃ k, k ≤ (macCmds env base head).length ∧
        (merge_and_check exec env base head s).trace = (macCmds env base head).take k) ∧
    ((merge_and_check exec env base head s).result = .ok () →
        (merge_and_check exec env base head s).trace = macCmds env base head) ∧
    (∀ c ec,
        (merge_and_check exec env base head s).result = .error (.errorReturnCode c ec) →
        ∃ pre, (merge_and_check exec env base head s).trace = pre ++ [c]) := by
  rw [merge_and_check_eq_runSeq]
  exact ⟨runSeq_take exec _ s, runSeq_ok_trace exec _ s,
    fun c ec h => runSeq_erc_last exec _ s c ec h⟩

theorem C1_witness :
    (merge_and_check execAllOk envEx "main" "feat" ()).trace = macCmds envEx "main" "feat" :=
  (C1_fixed_order_prefix_abort execAllOk envEx "main" "feat" ()).2.1 (by rfl)

/-- Claim C2: over any enumeration of pull requests of size N the checker
subprocess is invoked at most N times in total; an iteration whose five git
steps all succeed invokes it exactly once, and an iteration in which the
merge step or any earlier git step fails invokes it zero times. -/
theorem C2_checker_invocation_count (exec : Cmd → σ → CmdResult × σ) (env : EnvConfig)
    (cwd : String) (prs : List PR) (s : σ) :
    countChecker (prLoop exec env cwd prs s).1 ≤ prs.length ∧
    (∀ (pr : PR) (s' : σ), (gitPhase exec pr.base pr.head s').result = .ok () →
        countChecker (checkOne exec env cwd pr s').1 = 1) ∧
    (∀ (pr : PR) (s' : σ), (gitPhase exec pr.base pr.head s').result ≠ .ok () →
        countChecker (checkOne exec env cwd pr s').1 = 0) := by
  refine ⟨prLoop_countChecker_le exec env cwd prs s, fun pr s' hg => ?_, fun pr s' hg => ?_⟩
  · rw [countChecker_checkOne, mac_countP, if_pos hg]
  · rw [countChecker_checkOne, mac_countP, if_neg hg]

theorem C2_witness :
    countChecker (checkOne execAllOk envEx "/work" (PR.mk 5 "main" "feat") ()).1 = 1 :=
  (C2_checker_invocation_count execAllOk envEx "/work" [] ()).2.1
    (PR.mk 5 "main" "feat") () (by rfl)

/-- Claim C3: a non-zero subprocess exit inside `merge_and_check` (the
`ErrorReturnCode` condition) is caught at the per-pull-request boundary: the
iteration prints the failure notice and the loop continues with the
remaining pull requests; any other exception is not caught inside the loop
and propagates, terminating the enumeration with the remaining pull
requests unprocessed. -/
theorem C3_per_item_error_boundary (exec : Cmd → σ → CmdResult × σ) (env : EnvConfig)
    (cwd : String) (pr : PR) (rest : List PR) (s : σ) :
    (∀ c ec,
        (merge_and_check exec env pr.base pr.head s).result =
            .error (.errorReturnCode c ec) →
        prLoop exec env cwd (pr :: rest) s =
          ((checkOne exec env cwd pr s).1 ++
             (prLoop exec env cwd rest (checkOne exec env cwd pr s).2.1).1,
           (prLoop exec env cwd rest (checkOne exec env cwd pr s).2.1).2.1,
           (prLoop exec env cwd rest (checkOne exec env cwd pr s).2.1).2.2) ∧
        Event.print ("✘ Problem: " ++ ercMessage c ec) ∈ (checkOne exec env cwd pr s).1) ∧
    (∀ m,
        (merge_and_check exec env pr.base pr.head s).result = .error (.other m) →
        prLoop exec env cwd (pr :: rest) s =
          ((checkOne exec env cwd pr s).1, (checkOne exec env cwd pr s).2.1,
           .error (.other m))) := by
  constructor
  · intro c ec h
    have hs : (checkOne exec env cwd pr s).2.2 = .ok () := by simp [checkOne, h]
    constructor
    · simp [prLoop, hs]
    · simp [checkOne, h]
  · intro m h
    have hs : (checkOne exec env cwd pr s).2.2 = .error (.other m) := by
      simp [checkOne, h]
    simp [prLoop, hs]

theorem C3_witness :
    Event.print ("✘ Problem: " ++ ercMessage (Cmd.merge ("origin/" ++ "feat") true) 1) ∈
      (checkOne execMergeConflict envEx "/work" (PR.mk 7 "main" "feat") ()).1 :=
  ((C3_per_item_error_boundary execMergeConflict envEx "/work"
      (PR.mk 7 "main" "feat") [] ()).1 (Cmd.merge ("origin/" ++ "feat") true) 1 (by rfl)).2

/-- Claim C4: the working directory is changed to the configured work tree
exactly once, before the loop begins (the only other directory change is the
final restoration), and it is restored to its pre-loop value on every exit
path — the restoration and the final state hold whatever the loop's result,
normal or exceptional. -/
theorem C4_chdir_once_and_restored (exec : Cmd → σ → CmdResult × σ) (env : EnvConfig)
    (prs : List PR) (st : ProcState σ) :
    (∃ bodyEvs, (check_open_pull_requests exec env prs st).1 =
        Event.chdir env.WORK_TREE :: (bodyEvs ++ [Event.chdir st.cwd]) ∧
        ∀ p, Event.chdir p ∉ bodyEvs) ∧
    (check_open_pull_requests exec env prs st).2.1.cwd = st.cwd := by
  refine ⟨⟨(prLoop exec env env.WORK_TREE prs st.tree).1, rfl, ?_⟩, rfl⟩
  exact fun p => prLoop_no_chdir exec env env.WORK_TREE prs st.tree p

theorem C4_witness :
    (check_open_pull_requests execAllOk envEx [PR.mk 5 "main" "feat"]
        (ProcState.mk "/orig" ())).2.1.cwd = "/orig" :=
  (C4_chdir_once_and_restored execAllOk envEx [PR.mk 5 "main" "feat"]
      (ProcState.mk "/orig" ())).2

/-- Claim C5, counterexample: at a concrete input whose git phase succeeds,
the checker subprocess is invoked with a non-empty argument list (the fixed
argument `cemt` and a `--config=` option), and never with an empty one — the
claim that the checker is invoked with no arguments is false of the code. -/
theorem C5_counterexample :
    (gitPhase execAllOk "main" "feat" ()).result = .ok () ∧
    (∃ p args,
        Cmd.checker p args ∈ (merge_and_check execAllOk envEx "main" "feat" ()).trace ∧
        args ≠ []) ∧
    (∀ p args,
        Cmd.checker p args ∈ (merge_and_check execAllOk envEx "main" "feat" ()).trace →
        args ≠ []) := by
  have ht : (merge_and_check execAllOk envEx "main" "feat" ()).trace =
      [Cmd.fetch, Cmd.resetHard, Cmd.cleanDfx, Cmd.checkout ("origin/" ++ "main"),
       Cmd.merge ("origin/" ++ "feat") true,
       Cmd.checker "/usr/bin/flake8" ["cemt", "--config=" ++ "/cfg/setup.cfg"]] := by rfl
  refine ⟨by rfl,
    ⟨"/usr/bin/flake8", ["cemt", "--config=" ++ "/cfg/setup.cfg"], ?_, by simp⟩, ?_⟩
  · rw [ht]
    simp
  · intro p args h
    rw [ht] at h
    simp at h
    obtain ⟨hp, hargs⟩ := h
    subst hargs
    simp

/-- Claim C5 as amended: after a successful git phase the checker executable
named by `FLAKE8_PATH` is invoked exactly once, with the argument `cemt` and
the option `--config=<FLAKE8_CONFIG_PATH>` (not with no arguments), with the
current directory being the merged working tree; the outcome is pass exactly
when the checker exits with status zero and fail for any non-zero status. -/
theorem C5_amended_checker_invocation (exec : Cmd → σ → CmdResult × σ) (env : EnvConfig)
    (base head : String) (s : σ) (prs : List PR) (st : ProcState σ) :
    ((gitPhase exec base head s).result = .ok () →
        (merge_and_check exec env base head s).trace = macCmds env base head ∧
        ((merge_and_check exec env base head s).result = .ok () ↔
          (exec (checkerCmd env) (gitPhase exec base head s).state).1 = .exit 0)) ∧
    (∀ w c, Event.run w c ∈ (check_open_pull_requests exec env prs st).1 →
        w = env.WORK_TREE) := by
  constructor
  · intro hg
    have h5 : (gitPhase exec base head s).trace = gitCmds base head := by
      rw [gitPhase_eq_runSeq] at hg ⊢
      exact runSeq_ok_trace exec _ s hg
    constructor
    · rw [merge_and_check]
      rcases hgr : gitPhase exec base head s with ⟨gt, gs, gres⟩
      rw [hgr] at hg h5
      have hok : gres = .ok () := hg
      have hgt : gt = gitCmds base head := h5
      subst hok
      subst hgt
      simp [Run.andThen, runCmd_trace, macCmds]
    · rw [merge_and_check]
      rcases hgr : gitPhase exec base head s with ⟨gt, gs, gres⟩
      rw [hgr] at hg
      have hok : gres = .ok () := hg
      subst hok
      rcases hc : exec (checkerCmd env) gs with ⟨cr, s'⟩
      cases cr with
      | exit code =>
          by_cases h0 : code = 0 <;> simp [Run.andThen, runCmd, hc, h0]
      | exc m => simp [Run.andThen, runCmd, hc]
  · intro w c hmem
    simp only [check_open_pull_requests, temp_chdir] at hmem
    rcases List.mem_cons.mp hmem with h0 | h1
    · exact absurd h0 (by simp)
    · rcases List.mem_append.mp h1 with h2 | h3
      · exact prLoop_run_cwd exec env env.WORK_TREE prs st.tree w c h2
      · simp at h3

theorem C5_amended_witness :
    (merge_and_check execAllOk envEx "main" "feat" ()).trace = macCmds envEx "main" "feat" ∧
    ((merge_and_check execAllOk envEx "main" "feat" ()).result = .ok () ↔
      (execAllOk (checkerCmd envEx) (gitPhase execAllOk "main" "feat" ()).state).1 =
        .exit 0) :=
  (C5_amended_checker_invocation execAllOk envEx "main" "feat" () []
      (ProcState.mk "/orig" ())).1 (by rfl)

/-- Claim C6: the checkout step checks out exactly the remote-tracking base
reference `origin/<base>` (a detached checkout: in the git semantics it
creates or updates no local branch and no commit), and the only merge step
merges exactly the remote-tracking head reference `origin/<head>` with the
no-commit option, which creates no commit object. -/
theorem C6_remote_refs_detached_no_commit (exec : Cmd → σ → CmdResult × σ)
    (env : EnvConfig) (base head : String) (s : σ) :
    (∀ ref, Cmd.checkout ref ∈ (merge_and_check exec env base head s).trace →
        ref = "origin/" ++ base) ∧
    (∀ ref nc, Cmd.merge ref nc ∈ (merge_and_check exec env base head s).trace →
        ref = "origin/" ++ head ∧ nc = true) ∧
    (∀ (w : GitWorld) (t : Worktree) (ref : String),
        (gitExec w (.checkout ref) t).2.localBranches = t.localBranches ∧
        (gitExec w (.checkout ref) t).2.commits = t.commits) ∧
    (∀ (w : GitWorld) (t : Worktree) (ref : String),
        (gitExec w (.merge ref true) t).2.commits = t.commits) := by
  have hsub : ∀ c, c ∈ (merge_and_check exec env base head s).trace →
      c ∈ macCmds env base head := by
    rw [merge_and_check_eq_runSeq]
    intro c hc
    obtain ⟨k, hk, htr⟩ := runSeq_take exec (macCmds env base head) s
    rw [htr] at hc
    exact List.take_subset k _ hc
  refine ⟨fun ref h => ?_, fun ref nc h => ?_, fun w t ref => ?_, fun w t ref => ?_⟩
  · have hm := hsub _ h
    simpa [macCmds, gitCmds, checkerCmd] using hm
  · have hm := hsub _ h
    simpa [macCmds, gitCmds, checkerCmd] using hm
  · constructor <;> (cases hrr : t.remoteRefs ref <;> simp [gitExec, hrr])
  · cases hrr : t.remoteRefs ref with
    | none => simp [gitExec, hrr]
    | some h =>
        cases hm : w.mergeTree t.headCommit h <;> simp [gitExec, hrr, hm]

theorem C6_witness : "origin/main" = "origin/" ++ "main" :=
  (C6_remote_refs_detached_no_commit execAllOk envEx "main" "feat" ()).1
    "origin/main" (by decide)

/-- Claim C7: when the enumeration returns zero pull requests the loop spawns
no git command and no checker subprocess — the only events are entering and
leaving the work tree — and it terminates normally. -/
theorem C7_empty_enumeration (exec : Cmd → σ → CmdResult × σ) (env : EnvConfig)
    (st : ProcState σ) :
    check_open_pull_requests exec env ([] : List PR) st =
      ([Event.chdir env.WORK_TREE, Event.chdir st.cwd],
       ProcState.mk st.cwd st.tree, .ok ()) ∧
    ∀ w c, Event.run w c ∉ (check_open_pull_requests exec env ([] : List PR) st).1 := by
  refine ⟨rfl, fun w c h => ?_⟩
  simp [check_open_pull_requests, temp_chdir, prLoop] at h

theorem C7_witness :
    check_open_pull_requests execAllOk envEx ([] : List PR) (ProcState.mk "/orig" ()) =
      ([Event.chdir "/work", Event.chdir "/orig"], ProcState.mk "/orig" (), .ok ()) :=
  (C7_empty_enumeration execAllOk envEx (ProcState.mk "/orig" ())).1

/-- Claim C8: running `merge_and_check` twice in a row for the same
`(base, head)` pair against the concrete git semantics — the external world
(remote refs, merge function, checker verdict) unchanged between the runs —
produces the same result, and in particular the same pass/fail outcome, both
times: the fetch/reset/clean/checkout steps renormalise whatever state the
first run left behind. -/
theorem C8_idempotent_outcome (w : GitWorld) (env : EnvConfig) (base head : String)
    (t : Worktree) :
    (merge_and_check (gitExec w) env base head
        (merge_and_check (gitExec w) env base head t).state).result =
      (merge_and_check (gitExec w) env base head t).result ∧
    ((merge_and_check (gitExec w) env base head
        (merge_and_check (gitExec w) env base head t).state).result = .ok () ↔
      (merge_and_check (gitExec w) env base head t).result = .ok ()) := by
  have hmain : (merge_and_check (gitExec w) env base head
      (merge_and_check (gitExec w) env base head t).state).result =
      (merge_and_check (gitExec w) env base head t).result := by
    rcases hb : w.refs ("origin/" ++ base) with _ | cb
    · simp [merge_and_check, gitPhase, runCmd, Run.andThen, gitExec, hb]
    · rcases hh : w.refs ("origin/" ++ head) with _ | ch
      · simp [merge_and_check, gitPhase, runCmd, Run.andThen, gitExec, hb, hh]
      · rcases hm : w.mergeTree cb ch with _ | m
        · simp [merge_and_check, gitPhase, runCmd, Run.andThen, gitExec, hb, hh, hm]
        · by_cases hk : w.checkerExit m = 0 <;>
            simp [merge_and_check, gitPhase, runCmd, Run.andThen, gitExec, checkerCmd,
              hb, hh, hm, hk]
  exact ⟨hmain, by rw [hmain]⟩

/-- Claim C9: attribute access on the configuration accessor returns the
value mapped to that name when it is present in the underlying mapping,
raises the missing-configuration condition (`KeyError`, carrying the name)
when it is absent, and leaves the mapping untouched. -/
theorem C9_getattr_contract (a : ItemAttrs) (name v : String) :
    (a._items.lookup name = some v → a.getattr name = (.ok v, a)) ∧
    (a._items.lookup name = none → a.getattr name = (.error name, a)) ∧
    (a.getattr name).2 = a := by
  refine ⟨fun h => ?_, fun h => ?_, rfl⟩ <;> simp [ItemAttrs.getattr, h]

theorem C9_witness : aEx.getattr "WORK_TREE" = (.ok "/work", aEx) :=
  (C9_getattr_contract aEx "WORK_TREE" "/work").1 (by rfl)

/-- Claim C10: setting an attribute writes the value through to the
underlying mapping — a subsequent attribute get of the same name returns
exactly the value that was set — and a subsequent attribute delete of that
name succeeds and removes the entry from the underlying mapping. -/
theorem C10_setattr_writes_through (a : ItemAttrs) (name value : String)
    (h : (a._items.map Prod.fst).Nodup) :
    (a.setattr name value).getattr name = (.ok value, a.setattr name value) ∧
    (a.setattr name value)._items.lookup name = some value ∧
    ∃ items', (a.setattr name value).delattr name = .ok (ItemAttrs.mk items') ∧
      items'.lookup name = none := by
  obtain ⟨r, hr, hl⟩ := lookup_dictDel_dictSet a._items name value h
  refine ⟨?_, lookup_dictSet_self a._items name value, r, ?_, hl⟩
  · simp [ItemAttrs.getattr, ItemAttrs.setattr, lookup_dictSet_self]
  · simp [ItemAttrs.delattr, ItemAttrs.setattr, hr]

theorem C10_witness :
    (aEx.setattr "GITHUB_REPO" "prchecker").getattr "GITHUB_REPO" =
      (.ok "prchecker", aEx.setattr "GITHUB_REPO" "prchecker") :=
  (C10_setattr_writes_through aEx "GITHUB_REPO" "prchecker" (by decide)).1
